import Mathlib

/-!
Shallow embedding of the client-side SQL column validator
(`src/validation/columnValidator.ts` of the repository): lexical scanning
helpers, the table/alias extractor, the column-reference extractor and
`validateColumns`, together with proofs of the specification claims.

JavaScript strings are modelled as `List Char` (ASCII queries), JS regex
global scans as explicit fuelled left-to-right scanners with the same
leftmost-match / continue-at-match-end semantics, JS `Set` and `Map` by
their membership/lookup-observable behaviour.
-/

/-- `\w` character class of the source's regexes: ASCII letter, digit or underscore. -/
def isWordChar (c : Char) : Bool :=
  c.isAlpha || c.isDigit || c = '_'

/-- `\s` of the source's regexes (ASCII whitespace). -/
def isSpaceChar (c : Char) : Bool :=
  c = ' ' || c = '\t' || c = '\n' || c = '\r' || c = '\x0b' || c = '\x0c'

/-- First character of an identifier (`[a-zA-Z_]`). -/
def isIdentStart (c : Char) : Bool :=
  c.isAlpha || c = '_'

/-- Whether the character just before position `i` is a word character
(used for the `\b` boundary of the source's regexes; out of range counts
as non-word). -/
def prevIsWord (cs : List Char) (i : Nat) : Bool :=
  match i with
  | 0 => false
  | j + 1 =>
    match cs[j]? with
    | some c => isWordChar c
    | none => false

/-- Whether the character at position `i` is a word character. -/
def currIsWord (cs : List Char) (i : Nat) : Bool :=
  match cs[i]? with
  | some c => isWordChar c
  | none => false

/-- `\b` word boundary at position `i`: exactly one side is a word character. -/
def boundaryAt (cs : List Char) (i : Nat) : Bool :=
  prevIsWord cs i != currIsWord cs i

/-- Length of the maximal run of characters satisfying `p` at the head of the list. -/
def countLeading (p : Char → Bool) : List Char → Nat
  | [] => 0
  | c :: rest => if p c then countLeading p rest + 1 else 0

/-- Length of the whitespace run starting at position `i` (`\s*` / `\s+`). -/
def wsRun (cs : List Char) (i : Nat) : Nat :=
  countLeading isSpaceChar (cs.drop i)

/-- Length of the word-character run starting at position `i` (`\w*` / `\w+`). -/
def wordRun (cs : List Char) (i : Nat) : Nat :=
  countLeading isWordChar (cs.drop i)

/-- Case-insensitive prefix test: `pat` (given in lowercase) matches the
start of `s` up to ASCII case. -/
def prefixCI : List Char → List Char → Bool
  | [], _ => true
  | _ :: _, [] => false
  | p :: ps, c :: rest => (c.toLower == p) && prefixCI ps rest

/-- Case-insensitive match of `pat` at position `i` of `cs`. -/
def matchCI (cs : List Char) (i : Nat) (pat : List Char) : Bool :=
  prefixCI pat (cs.drop i)

/-- The slice of `cs` of length `len` starting at position `i`. -/
def sliceL (cs : List Char) (i len : Nat) : List Char :=
  (cs.drop i).take len

/-- ASCII lowercasing of a string (JS `toLowerCase` on ASCII input). -/
def lowerS (s : String) : String :=
  String.mk (s.data.map Char.toLower)

/-- ASCII uppercasing of a string (JS `toUpperCase` on ASCII input). -/
def upperS (s : String) : String :=
  String.mk (s.data.map Char.toUpper)

/-- Whether `cs` contains (case-insensitively) the pattern `pat` as a substring. -/
def containsCI : List Char → List Char → Bool
  | [], pat => prefixCI pat []
  | c :: rest, pat => prefixCI pat (c :: rest) || containsCI rest pat

/-- All characters of the query are whitespace: the embedding of the
source's `!query.trim()` guard (`query.trim() === ''`). -/
def isBlank (cs : List Char) : Bool :=
  cs.all isSpaceChar

/-- JS `String.prototype.indexOf` helper: position of the first occurrence
of `needle` in the remaining list, given the absolute position `i` of its head. -/
def jsIndexOfAux (needle : List Char) : List Char → Nat → Option Nat
  | [], i => if needle.isEmpty then some i else none
  | c :: rest, i =>
    if needle.isPrefixOf (c :: rest) then some i else jsIndexOfAux needle rest (i + 1)

/-- JS `String.prototype.indexOf`: first occurrence of `needle` in `hay`, `-1` if absent. -/
def jsIndexOf (hay needle : List Char) : Int :=
  match jsIndexOfAux needle hay 0 with
  | some n => (n : Int)
  | none => -1

/-- Helper for `jsLastIndexOf`: last position at which `needle` occurs. -/
def jsLastIndexOfAux (needle : List Char) : List Char → Nat → Option Nat
  | [], i => if needle.isEmpty then some i else none
  | c :: rest, i =>
    match jsLastIndexOfAux needle rest (i + 1) with
    | some j => some j
    | none => if needle.isPrefixOf (c :: rest) then some i else none

/-- JS `String.prototype.lastIndexOf`: last occurrence of `needle` in `hay`, `-1` if absent. -/
def jsLastIndexOf (hay needle : List Char) : Int :=
  match jsLastIndexOfAux needle hay 0 with
  | some n => (n : Int)
  | none => -1

/-- Driver for a JS global-regex `exec` loop: from position `i`, if the
pattern matches at `i` record the result and resume at the match end,
otherwise try `i + 1`.  `fuel` bounds the iteration count (every pattern of
the source matches at least one character, so `length + 1` fuel scans every
start position). -/
def scanLoop {α : Type} (step : Nat → Option (α × Nat)) : Nat → Nat → List α
  | _, 0 => []
  | i, fuel + 1 =>
    match step i with
    | some (a, j) => a :: scanLoop step j fuel
    | none => scanLoop step (i + 1) fuel

/-- Modelled from the spec: the static SQL keyword vocabulary
(`SQL_KEYWORDS` of the autocomplete keywords module, which is not present
under `src/`; §2 "keyword/function-name classification against static
vocabularies", §4.3 treats `WHERE` and friends as recognized keywords). -/
def SQL_KEYWORDS : List String :=
  ["SELECT", "FROM", "WHERE", "JOIN", "INNER", "LEFT", "RIGHT", "OUTER", "FULL",
   "CROSS", "ON", "AS", "AND", "OR", "NOT", "GROUP", "BY", "ORDER", "LIMIT",
   "OFFSET", "HAVING", "DISTINCT", "INSERT", "INTO", "VALUES", "UPDATE", "SET",
   "DELETE", "NULL", "IS", "IN", "LIKE", "BETWEEN", "CASE", "WHEN", "THEN",
   "ELSE", "END", "UNION", "ALL", "EXISTS", "ASC", "DESC"]

/-- Modelled from the spec: the static SQL builtin-function vocabulary
(`SQL_FUNCTIONS` of the autocomplete keywords module, not present under `src/`). -/
def SQL_FUNCTIONS : List String :=
  ["COUNT", "SUM", "AVG", "MIN", "MAX", "NOW", "COALESCE", "UPPER", "LOWER",
   "LENGTH", "ROUND", "ABS"]

/-- `KEYWORDS_SET` of the source: the keywords uppercased; the JS `Set` is
modelled as a list observed through membership. -/
def KEYWORDS_SET : List String := SQL_KEYWORDS.map upperS

/-- `FUNCTIONS_SET` of the source. -/
def FUNCTIONS_SET : List String := SQL_FUNCTIONS.map upperS

/-- `KEYWORDS_SET.has(w.toUpperCase())` of the source. -/
def isKeyword (w : String) : Bool := KEYWORDS_SET.contains (upperS w)

/-- `FUNCTIONS_SET.has(w.toUpperCase())` of the source. -/
def isFunction (w : String) : Bool := FUNCTIONS_SET.contains (upperS w)

/-- `isInStringLiteral`'s scanning loop: walk the remaining characters with
`n` characters left before the target position, toggling on unescaped
single quotes; a doubled quote is consumed whole and does not toggle. -/
def inStrAux : List Char → Nat → Bool → Bool
  | _, 0, b => b
  | [], _ + 1, b => b
  | c :: rest, n + 1, b =>
    if c = '\'' then
      match rest with
      | [] => !b
      | c2 :: rest2 =>
        if c2 = '\'' then
          match n with
          | 0 => b
          | m + 1 => inStrAux rest2 m b
        else inStrAux rest n (!b)
    else inStrAux rest n b

/-- `isInStringLiteral(query, position)` of the source. -/
def isInStringLiteral (cs : List Char) (position : Nat) : Bool :=
  inStrAux cs position false

/-- `TableAlias` of the source (`alias` is a reserved word in Lean, so the
source's `alias` field is called `aliasName` here). -/
structure TableAlias where
  tableName : String
  aliasName : Option String
deriving DecidableEq, Repr

/-- `ColumnReference` of the source. -/
structure ColumnReference where
  name : String
  table : Option String
  position : Nat
  endPosition : Nat
deriving DecidableEq, Repr

/-- `ValidationError` of the source (`severity` is the literal string
`"error"` or `"warning"`). -/
structure ValidationError where
  message : String
  position : Nat
  endPosition : Nat
  severity : String
  hint : Option String
deriving DecidableEq, Repr

/-- Column metadata of the schema snapshot. -/
structure ColumnInfo where
  name : String
  dataType : String
  isNullable : Bool
deriving DecidableEq, Repr

/-- Foreign-key metadata of the schema snapshot. -/
structure ForeignKeyInfo where
  column : String
  referencedTable : String
  referencedColumn : String
deriving DecidableEq, Repr

/-- Table metadata of the schema snapshot. -/
structure TableInfo where
  name : String
  schema : String
  columns : List ColumnInfo
  foreignKeys : List ForeignKeyInfo
deriving DecidableEq, Repr

/-- `DatabaseSchema` of the autocomplete types: the schema snapshot. -/
structure DatabaseSchema where
  tables : List TableInfo
  keywords : List String
  functions : List String
deriving DecidableEq, Repr

def fromPat : List Char := ['f', 'r', 'o', 'm']

def joinPat : List Char := ['j', 'o', 'i', 'n']

def asPat : List Char := ['a', 's']

/-- Build the `TableAlias` the source pushes: the alias is dropped when it
is a recognized keyword. -/
def mkTA (tname : String) : Option String → TableAlias
  | none => { tableName := tname, aliasName := none }
  | some a => if isKeyword a then { tableName := tname, aliasName := none }
              else { tableName := tname, aliasName := some a }

/-- The optional alias group `(?:\s+(?:AS\s+)?(\w+))?` starting at position `m`:
returns the captured word's position, length, and the end of the group.
Backtracking note: when `AS` is present but not followed by whitespace and a
word, the regex falls back to capturing the word at the start of the group
(so a trailing `AS` itself becomes the candidate alias). -/
def optAliasAt (cs : List Char) (m : Nat) : Option (Nat × Nat × Nat) :=
  let w2 := wsRun cs m
  if w2 = 0 then none
  else
    let n := m + w2
    let wa := wsRun cs (n + 2)
    let n' := if matchCI cs n asPat then
                (if wa = 0 then n
                 else if wordRun cs (n + 2 + wa) = 0 then n
                 else n + 2 + wa)
              else n
    let t2 := wordRun cs n'
    if t2 = 0 then none else some (n', t2, n' + t2)

/-- The common tail `\s+(\w+)(?:\s+(?:AS\s+)?(\w+))?` of the `FROM`/`JOIN`
table regexes, starting right after the keyword at position `j`; returns
the pushed `TableAlias` and the end of the whole match. -/
def fromJoinTail (cs : List Char) (j : Nat) : Option (TableAlias × Nat) :=
  let w := wsRun cs j
  if w = 0 then none
  else
    let k := j + w
    let t := wordRun cs k
    if t = 0 then none
    else
      let tname := lowerS (String.mk (sliceL cs k t))
      match optAliasAt cs (k + t) with
      | some (ap, al, e) => some (mkTA tname (some (lowerS (String.mk (sliceL cs ap al)))), e)
      | none => some (mkTA tname none, k + t)

/-- One attempted match of `/\bFROM\s+(\w+)(?:\s+(?:AS\s+)?(\w+))?/gi` at position `i`. -/
def matchFromTA (cs : List Char) (i : Nat) : Option (TableAlias × Nat) :=
  if prevIsWord cs i then none
  else if matchCI cs i fromPat then fromJoinTail cs (i + 4)
  else none

/-- The optional `(?:LEFT|RIGHT|INNER|OUTER|FULL|CROSS)` alternation at
position `i`: length of the alternative that matches, if any (the
alternatives have pairwise distinct first letters, so at most one can). -/
def joinPrefixLen (cs : List Char) (i : Nat) : Option Nat :=
  if matchCI cs i ['l', 'e', 'f', 't'] then some 4
  else if matchCI cs i ['r', 'i', 'g', 'h', 't'] then some 5
  else if matchCI cs i ['i', 'n', 'n', 'e', 'r'] then some 5
  else if matchCI cs i ['o', 'u', 't', 'e', 'r'] then some 5
  else if matchCI cs i ['f', 'u', 'l', 'l'] then some 4
  else if matchCI cs i ['c', 'r', 'o', 's', 's'] then some 5
  else none

/-- `\s*JOIN` and the common tail, starting at position `p` (after an empty
or non-empty join-kind alternative). -/
def joinTailFrom (cs : List Char) (p : Nat) : Option (TableAlias × Nat) :=
  let j := p + wsRun cs p
  if matchCI cs j joinPat then fromJoinTail cs (j + 4) else none

/-- One attempted match of
`/\b(?:LEFT|RIGHT|INNER|OUTER|FULL|CROSS)?\s*JOIN\s+(\w+)(?:\s+(?:AS\s+)?(\w+))?/gi`
at position `i`; when the alternative matches but the rest fails, the regex
backtracks to the empty alternative. -/
def matchJoinTA (cs : List Char) (i : Nat) : Option (TableAlias × Nat) :=
  if boundaryAt cs i then
    match joinPrefixLen cs i with
    | some plen =>
      match joinTailFrom cs (i + plen) with
      | some r => some r
      | none => joinTailFrom cs i
    | none => joinTailFrom cs i
  else none

/-- `extractTablesWithAliases` of the source: the `FROM` global scan
followed by the `JOIN` global scan. -/
def extractTablesWithAliases (query : String) : List TableAlias :=
  let cs := query.data
  scanLoop (matchFromTA cs) 0 (cs.length + 1) ++ scanLoop (matchJoinTA cs) 0 (cs.length + 1)

/-- One iteration of `buildAliasMap`'s `for (const { tableName, alias } of
tables)` loop: `map.set(tableName, tableName)` and, when aliased,
`map.set(alias, tableName)`.  The JS `Map` is modelled through its
`get`-observable behaviour: `set` prepends a binding, so a lookup from the
head sees the latest write for a key (last write wins). -/
def aliasMapStep (m : List (String × String)) (ta : TableAlias) : List (String × String) :=
  let m1 := (ta.tableName, ta.tableName) :: m
  match ta.aliasName with
  | some a => (a, ta.tableName) :: m1
  | none => m1

/-- `buildAliasMap` of the source. -/
def buildAliasMap (tables : List TableAlias) : List (String × String) :=
  tables.foldl aliasMapStep []

/-- `Map.get` on the model of `buildAliasMap`: first binding from the head,
i.e. the most recent `set` for the key. -/
def mapGet (m : List (String × String)) (k : String) : Option String :=
  match m with
  | [] => none
  | (k', v) :: rest => if k' == k then some v else mapGet rest k

/-- `getTableColumns` of the source: the lowercased column names of the
first schema table whose name matches case-insensitively (the JS `Set` is
modelled as a list observed through membership). -/
def getTableColumns (tableName : String) (schema : DatabaseSchema) : List String :=
  match schema.tables.find? (fun t => lowerS t.name == lowerS tableName) with
  | some t => t.columns.map (fun c => lowerS c.name)
  | none => []

/-- `getAllColumnsInScope` of the source: the union (as membership) of the
columns of every table in scope. -/
def getAllColumnsInScope (tables : List TableAlias) (schema : DatabaseSchema) : List String :=
  match tables with
  | [] => []
  | ta :: rest => getTableColumns ta.tableName schema ++ getAllColumnsInScope rest schema

/-- `tableExistsInSchema` of the source. -/
def tableExistsInSchema (tableName : String) (schema : DatabaseSchema) : Bool :=
  schema.tables.any (fun t => lowerS t.name == lowerS tableName)

/-- One attempted match of the skip-position regex
`/\b(?:FROM|JOIN)\s+(\w+)/gi`: the recorded offset is
`match.index + match[0].indexOf(match[1])` (a case-sensitive `indexOf`
over the matched text, faithfully including its quirks). -/
def matchFromJoinAt (cs : List Char) (i : Nat) : Option (Int × Nat) :=
  if prevIsWord cs i then none
  else if matchCI cs i fromPat || matchCI cs i joinPat then
    let j := i + 4
    let w := wsRun cs j
    if w = 0 then none
    else
      let k := j + w
      let t := wordRun cs k
      if t = 0 then none
      else
        let e := k + t
        some ((i : Int) + jsIndexOf (sliceL cs i (e - i)) (sliceL cs k t), e)
  else none

/-- One attempted match of the skip-position regex
`/\b(?:FROM|JOIN)\s+\w+\s+(?:AS\s+)?(\w+)/gi`; the offset
`match.index + match[0].lastIndexOf(match[1])` is recorded only when the
captured word is not a keyword (`none` in the first component otherwise —
the match still advances the scan). -/
def matchAliasSkipAt (cs : List Char) (i : Nat) : Option (Option Int × Nat) :=
  if prevIsWord cs i then none
  else if matchCI cs i fromPat || matchCI cs i joinPat then
    let j := i + 4
    let w1 := wsRun cs j
    if w1 = 0 then none
    else
      let k := j + w1
      let t1 := wordRun cs k
      if t1 = 0 then none
      else
        let m := k + t1
        let w2 := wsRun cs m
        if w2 = 0 then none
        else
          let n := m + w2
          let wa := wsRun cs (n + 2)
          let n' := if matchCI cs n asPat then
                      (if wa = 0 then n
                       else if wordRun cs (n + 2 + wa) = 0 then n
                       else n + 2 + wa)
                    else n
          let t2 := wordRun cs n'
          if t2 = 0 then none
          else
            let e := n' + t2
            let m1 := sliceL cs n' t2
            let v := if isKeyword (String.mk m1) then none
                     else some ((i : Int) + jsLastIndexOf (sliceL cs i (e - i)) m1)
            some (v, e)
  else none

/-- One attempted match of the column-alias skip regex `/\bAS\s+(\w+)/gi`. -/
def matchAsSkipAt (cs : List Char) (i : Nat) : Option (Int × Nat) :=
  if prevIsWord cs i then none
  else if matchCI cs i asPat then
    let w := wsRun cs (i + 2)
    if w = 0 then none
    else
      let k := i + 2 + w
      let t := wordRun cs k
      if t = 0 then none
      else
        let e := k + t
        some ((i : Int) + jsIndexOf (sliceL cs i (e - i)) (sliceL cs k t), e)
  else none

/-- The `skipPositions` set of `extractColumnReferences`: table-name,
table-alias and column-alias definition offsets (the JS `Set<number>` is
modelled as a list observed through membership). -/
def skipPositions (cs : List Char) : List Int :=
  scanLoop (matchFromJoinAt cs) 0 (cs.length + 1)
    ++ (scanLoop (matchAliasSkipAt cs) 0 (cs.length + 1)).filterMap id
    ++ scanLoop (matchAsSkipAt cs) 0 (cs.length + 1)

/-- One attempted match of the identifier regex
`/\b([a-zA-Z_][a-zA-Z0-9_]*)\b/g`: a maximal word-character run starting
with a letter or underscore at a word boundary. -/
def identMatchAt (cs : List Char) (i : Nat) : Option ((Nat × Nat) × Nat) :=
  if prevIsWord cs i then none
  else
    match cs[i]? with
    | none => none
    | some c =>
      if isIdentStart c then
        let len := wordRun cs i
        some ((i, len), i + len)
      else none

/-- All identifier tokens of the query, as (start position, length) pairs
in left-to-right order. -/
def identTokens (cs : List Char) : List (Nat × Nat) :=
  scanLoop (identMatchAt cs) 0 (cs.length + 1)

/-- `beforeDot.match(/(\w+)\s*$/)`: the trailing word run of `l` (allowing
trailing whitespace), used to find the qualifier before a dot. -/
def trailingWord (l : List Char) : Option (List Char) :=
  let r := l.reverse
  let afterWS := r.dropWhile isSpaceChar
  let w := afterWS.takeWhile isWordChar
  if w.isEmpty then none else some w.reverse

/-- The body of the identifier loop of `extractColumnReferences`: classify
one identifier token, returning the emitted `ColumnReference` if any (the
source's `continue`s become `none`). -/
def classifyToken (cs : List Char) (names : List String) (skips : List Int)
    (tok : Nat × Nat) : Option ColumnReference :=
  let position := tok.1
  let word := sliceL cs position tok.2
  let wordStr := String.mk word
  if isInStringLiteral cs position then none
  else if skips.contains (position : Int) then none
  else if isKeyword wordStr then none
  else if isFunction wordStr then none
  else if !word.isEmpty && word.all Char.isDigit then none
  else if 0 < position ∧ cs[position - 1]? = some '.' then
    match trailingWord (cs.take (position - 1)) with
    | some tw =>
      some { name := lowerS wordStr, table := some (lowerS (String.mk tw)),
             position := position, endPosition := position + word.length }
    | none => none
  else if cs[position + word.length]? = some '.' then none
  else if names.contains (lowerS wordStr) then none
  else
    some { name := lowerS wordStr, table := none,
           position := position, endPosition := position + word.length }

/-- `extractColumnReferences` of the source: scan every identifier token
and classify it (the single `while (exec)` loop is the `filterMap` of the
loop body over the token list; table-name/alias sets are modelled as a
concatenated list observed through membership). -/
def extractColumnReferences (query : String) (tables : List TableAlias) : List ColumnReference :=
  let cs := query.data
  let names := tables.map (fun t => t.tableName) ++ tables.filterMap (fun t => t.aliasName)
  (identTokens cs).filterMap (classifyToken cs names (skipPositions cs))

/-- `t.alias || t.tableName` of the source's hint construction. -/
def displayName (t : TableAlias) : String := t.aliasName.getD t.tableName

/-- JS `Array.prototype.join(', ')`. -/
def joinComma : List String → String
  | [] => ""
  | x :: xs => xs.foldl (fun acc y => acc ++ ", " ++ y) x

/-- The body of the validation loop of `validateColumns`: the diagnostic
(if any) emitted for one column reference. -/
def refDiag (schema : DatabaseSchema) (tables : List TableAlias)
    (aliasMap : List (String × String)) (allColumnsInScope : List String)
    (ref : ColumnReference) : Option ValidationError :=
  match ref.table with
  | some rt =>
    match mapGet aliasMap rt with
    | none => none
    | some actualTableName =>
      if tableExistsInSchema actualTableName schema then
        if (getTableColumns actualTableName schema).contains ref.name then none
        else
          some { message := "Unknown column \"" ++ ref.name ++ "\"",
                 position := ref.position, endPosition := ref.endPosition,
                 severity := "error",
                 hint := some ("\"" ++ ref.name ++ "\" not found in table \"" ++ rt ++ "\"") }
      else none
  | none =>
    if allColumnsInScope.contains ref.name then none
    else
      let knownTables := tables.filter (fun t => tableExistsInSchema t.tableName schema)
      if knownTables.isEmpty then none
      else
        some { message := "Unknown column \"" ++ ref.name ++ "\"",
               position := ref.position, endPosition := ref.endPosition,
               severity := "error",
               hint := some ("\"" ++ ref.name ++ "\" not found in "
                 ++ (if knownTables.length = 1 then "table" else "tables")
                 ++ ": " ++ joinComma (knownTables.map displayName)) }

/-- `validateColumns` of the source; the `for (ref of columnRefs)` loop
that pushes at most one error per reference is the `filterMap` of `refDiag`. -/
def validateColumns (query : String) (schema : DatabaseSchema) : List ValidationError :=
  if isBlank query.data then []
  else
    let tables := extractTablesWithAliases query
    if tables.isEmpty then []
    else
      (extractColumnReferences query tables).filterMap
        (refDiag schema tables (buildAliasMap tables) (getAllColumnsInScope tables schema))

/-- The substring of `q` from position `a` (inclusive) to `b` (exclusive). -/
def sliceStr (q : String) (a b : Nat) : String :=
  String.mk ((q.data.drop a).take (b - a))

/-- The bindings one table/alias pair inserts, in insertion order. -/
def entryOf (ta : TableAlias) : List (String × String) :=
  (ta.tableName, ta.tableName) ::
    (match ta.aliasName with
     | some a => [(a, ta.tableName)]
     | none => [])

/-- All bindings `buildAliasMap` inserts, in insertion order. -/
def aliasBindings : List TableAlias → List (String × String)
  | [] => []
  | ta :: rest => entryOf ta ++ aliasBindings rest

/-- Lookup that returns the value of the LAST binding for a key in a list
of bindings read in insertion order. -/
def lastLookup (l : List (String × String)) (k : String) : Option String :=
  match l with
  | [] => none
  | (k', v) :: rest =>
    match lastLookup rest k with
    | some r => some r
    | none => if k' == k then some v else none

/-- Sample schema with a single table `orders(id, total)`, used by witnesses. -/
def ordersSchema : DatabaseSchema :=
  { tables := [{ name := "orders", schema := "public",
                 columns := [{ name := "id", dataType := "integer", isNullable := false },
                             { name := "total", dataType := "numeric", isNullable := true }],
                 foreignKeys := [] }],
    keywords := [], functions := [] }

/-- Variant of the sample schema whose `keywords`/`functions` fields differ. -/
def ordersSchemaVocab : DatabaseSchema :=
  { tables := ordersSchema.tables, keywords := ["SELECT", "FROM"], functions := ["COUNT"] }

/-! ### Generic lemmas about the scan driver -/

theorem scanLoop_forall {α : Type} (step : Nat → Option (α × Nat)) (P : α → Prop)
    (h : ∀ k a j, step k = some (a, j) → P a) :
    ∀ fuel i, ∀ x ∈ scanLoop step i fuel, P x := by
  intro fuel
  induction fuel with
  | zero => intro i x hx; simp [scanLoop] at hx
  | succ n ih =>
    intro i x hx
    cases hstep : step i with
    | none =>
      rw [scanLoop, hstep] at hx
      exact ih (i + 1) x hx
    | some aj =>
      rw [scanLoop, hstep] at hx
      rcases List.mem_cons.mp hx with hx | hx
      · exact hx ▸ h i aj.1 aj.2 (by rw [hstep])
      · exact ih aj.2 x hx

theorem scanLoop_eq_nil {α : Type} (step : Nat → Option (α × Nat))
    (h : ∀ k, step k = none) : ∀ fuel i, scanLoop step i fuel = [] := by
  intro fuel
  induction fuel with
  | zero => intro i; rfl
  | succ n ih => intro i; rw [scanLoop, h i]; exact ih (i + 1)

theorem scanLoop_sorted {α : Type} (step : Nat → Option (α × Nat)) (key : α → Nat)
    (h : ∀ k a j, step k = some (a, j) → k ≤ key a ∧ key a < j) :
    ∀ fuel i, (scanLoop step i fuel).Pairwise (fun a b => key a < key b) ∧
      ∀ x ∈ scanLoop step i fuel, i ≤ key x := by
  intro fuel
  induction fuel with
  | zero => intro i; simp [scanLoop]
  | succ n ih =>
    intro i
    cases hstep : step i with
    | none =>
      rw [scanLoop, hstep]
      refine ⟨(ih (i + 1)).1, fun x hx => ?_⟩
      exact Nat.le_of_succ_le ((ih (i + 1)).2 x hx)
    | some aj =>
      rw [scanLoop, hstep]
      obtain ⟨hk, hj⟩ := h i aj.1 aj.2 (by rw [hstep])
      obtain ⟨hpair, hlb⟩ := ih aj.2
      constructor
      · exact List.pairwise_cons.mpr
          ⟨fun x hx => Nat.lt_of_lt_of_le hj (hlb x hx), hpair⟩
      · intro x hx
        rcases List.mem_cons.mp hx with hx | hx
        · exact hx ▸ hk
        · exact Nat.le_trans (Nat.le_trans hk (Nat.le_of_lt hj)) (hlb x hx)

/-! ### Small list helpers -/

theorem filter_eq_nil_of {α : Type} (p : α → Bool) :
    ∀ l : List α, (∀ x ∈ l, p x = false) → l.filter p = [] := by
  intro l h
  induction l with
  | nil => rfl
  | cons a l ih =>
    rw [List.filter_cons, h a (by simp)]
    exact ih (fun x hx => h x (by simp [hx]))

theorem pairwise_filterMap_key {α β : Type} (f : α → Option β)
    (keyA : α → Nat) (keyB : β → Nat)
    (hf : ∀ a b, f a = some b → keyB b = keyA a) :
    ∀ l : List α, l.Pairwise (fun a b => keyA a < keyA b) →
      (l.filterMap f).Pairwise (fun a b => keyB a < keyB b) := by
  intro l hl
  induction l with
  | nil => simp
  | cons a l ih =>
    obtain ⟨ha, hl'⟩ := List.pairwise_cons.mp hl
    rw [List.filterMap_cons]
    cases hfa : f a with
    | none => exact ih hl'
    | some b =>
      refine List.pairwise_cons.mpr ⟨fun y hy => ?_, ih hl'⟩
      obtain ⟨x, hx, hfx⟩ := List.mem_filterMap.mp hy
      rw [hf a b hfa, hf x y hfx]
      exact ha x hx

/-! ### Blank queries produce no tables -/

theorem isSpaceChar_cases (c : Char) (h : isSpaceChar c = true) :
    c = ' ' ∨ c = '\t' ∨ c = '\n' ∨ c = '\r' ∨ c = '\x0b' ∨ c = '\x0c' := by
  simp only [isSpaceChar, Bool.or_eq_true, decide_eq_true_eq] at h
  tauto

theorem blank_prefixCI (cs : List Char) (hb : isBlank cs = true)
    (p : Char) (ps : List Char)
    (hp : (' '.toLower == p) = false ∧ ('\t'.toLower == p) = false ∧
          ('\n'.toLower == p) = false ∧ ('\r'.toLower == p) = false ∧
          ('\x0b'.toLower == p) = false ∧ ('\x0c'.toLower == p) = false) :
    ∀ k, prefixCI (p :: ps) (cs.drop k) = false := by
  intro k
  cases hd : cs.drop k with
  | nil => rfl
  | cons c rest =>
    have hc : c ∈ cs := List.drop_subset k cs (hd ▸ List.mem_cons_self c rest)
    have hsp : isSpaceChar c = true := by
      simpa using (List.all_eq_true.mp hb) c hc
    have : (c.toLower == p) = false := by
      rcases isSpaceChar_cases c hsp with h | h | h | h | h | h <;> subst h <;> tauto
    rw [prefixCI, this, Bool.false_and]

theorem blank_matchFromTA (cs : List Char) (hb : isBlank cs = true) :
    ∀ k, matchFromTA cs k = none := by
  intro k
  have hf : matchCI cs k fromPat = false :=
    blank_prefixCI cs hb 'f' ['r', 'o', 'm'] (by decide) k
  unfold matchFromTA
  rw [hf]
  simp

theorem blank_matchJoinTA (cs : List Char) (hb : isBlank cs = true) :
    ∀ k, matchJoinTA cs k = none := by
  intro k
  have hj : ∀ m, matchCI cs m joinPat = false := fun m =>
    blank_prefixCI cs hb 'j' ['o', 'i', 'n'] (by decide) m
  have ht : ∀ p, joinTailFrom cs p = none := by
    intro p
    simp [joinTailFrom, hj]
  unfold matchJoinTA
  cases hbd : boundaryAt cs k with
  | false => simp
  | true =>
    cases hpl : joinPrefixLen cs k with
    | none => simp [hpl, ht]
    | some plen => simp [hpl, ht]

theorem blank_extractTables (q : String) (hb : isBlank q.data = true) :
    extractTablesWithAliases q = [] := by
  simp [extractTablesWithAliases, scanLoop_eq_nil _ (blank_matchFromTA q.data hb),
        scanLoop_eq_nil _ (blank_matchJoinTA q.data hb)]

/-! ### Substring-free queries produce no tables -/

theorem containsCI_of_prefixCI (pat : List Char) :
    ∀ (cs : List Char) (k : Nat), prefixCI pat (cs.drop k) = true → containsCI cs pat = true := by
  intro cs
  induction cs with
  | nil => intro k h; cases k <;> simpa [containsCI] using h
  | cons c rest ih =>
    intro k h
    cases k with
    | zero => simp only [containsCI]; rw [List.drop_zero] at h; rw [h]; rfl
    | succ k' =>
      simp only [containsCI]
      rw [List.drop_succ_cons] at h
      rw [ih k' h, Bool.or_true]

theorem noFrom_matchFromTA (cs : List Char) (h : containsCI cs fromPat = false) :
    ∀ k, matchFromTA cs k = none := by
  intro k
  have hf : matchCI cs k fromPat = false := by
    cases hm : matchCI cs k fromPat with
    | false => rfl
    | true => rw [containsCI_of_prefixCI fromPat cs k hm] at h; cases h
  unfold matchFromTA
  rw [hf]
  simp

theorem noJoin_matchJoinTA (cs : List Char) (h : containsCI cs joinPat = false) :
    ∀ k, matchJoinTA cs k = none := by
  intro k
  have hj : ∀ m, matchCI cs m joinPat = false := by
    intro m
    cases hm : matchCI cs m joinPat with
    | false => rfl
    | true => rw [containsCI_of_prefixCI joinPat cs m hm] at h; cases h
  have ht : ∀ p, joinTailFrom cs p = none := by
    intro p
    simp [joinTailFrom, hj]
  unfold matchJoinTA
  cases hbd : boundaryAt cs k with
  | false => simp
  | true =>
    cases hpl : joinPrefixLen cs k with
    | none => simp [hpl, ht]
    | some plen => simp [hpl, ht]

theorem noFromJoin_extractTables (q : String)
    (h1 : containsCI q.data fromPat = false) (h2 : containsCI q.data joinPat = false) :
    extractTablesWithAliases q = [] := by
  simp [extractTablesWithAliases, scanLoop_eq_nil _ (noFrom_matchFromTA q.data h1),
        scanLoop_eq_nil _ (noJoin_matchJoinTA q.data h2)]

theorem validateColumns_of_no_tables (q : String) (s : DatabaseSchema)
    (h : extractTablesWithAliases q = []) : validateColumns q s = [] := by
  unfold validateColumns
  rw [h]
  simp

/-! ### Structure of extracted tokens and references -/

theorem isIdentStart_isWordChar (c : Char) (h : isIdentStart c = true) : isWordChar c = true := by
  simp only [isIdentStart, Bool.or_eq_true] at h
  simp only [isWordChar, Bool.or_eq_true]
  tauto

theorem identMatchAt_bounds (cs : List Char) :
    ∀ k a j, identMatchAt cs k = some (a, j) → k ≤ a.1 ∧ a.1 < j := by
  intro k a j h
  simp only [identMatchAt] at h
  split at h
  · cases h
  · split at h
    case h_1 => cases h
    case h_2 c hc =>
      split at h
      case isFalse => cases h
      case isTrue hid =>
        have hlen : 0 < wordRun cs k := by
          have hk : k < cs.length := (List.getElem?_eq_some.mp hc).1
          have hdrop : cs.drop k = c :: cs.drop (k + 1) := by
            have := List.drop_eq_getElem_cons hk
            rwa [(List.getElem?_eq_some.mp hc).2] at this
          rw [wordRun, hdrop, countLeading, isIdentStart_isWordChar c hid]
          simp
        cases h
        exact ⟨Nat.le_refl k, Nat.lt_add_of_pos_right hlen⟩

theorem identTokens_sorted (cs : List Char) :
    (identTokens cs).Pairwise (fun a b => a.1 < b.1) :=
  (scanLoop_sorted (identMatchAt cs) (fun t => t.1) (identMatchAt_bounds cs) (cs.length + 1) 0).1

theorem classifyToken_shape (cs : List Char) (names : List String) (skips : List Int)
    (tok : Nat × Nat) (ref : ColumnReference)
    (h : classifyToken cs names skips tok = some ref) :
    ref.position = tok.1 ∧
    ref.name = lowerS (String.mk (sliceL cs tok.1 tok.2)) ∧
    ref.endPosition = tok.1 + (sliceL cs tok.1 tok.2).length ∧
    isInStringLiteral cs tok.1 = false := by
  simp only [classifyToken] at h
  split at h
  case isTrue => cases h
  case isFalse hlit =>
    split at h
    case isTrue => cases h
    case isFalse =>
      split at h
      case isTrue => cases h
      case isFalse =>
        split at h
        case isTrue => cases h
        case isFalse =>
          split at h
          case isTrue => cases h
          case isFalse =>
            split at h
            case isTrue =>
              split at h
              case h_1 tw htw =>
                cases h
                exact ⟨rfl, rfl, rfl, by simpa using hlit⟩
              case h_2 => cases h
            case isFalse =>
              split at h
              case isTrue => cases h
              case isFalse =>
                split at h
                case isTrue => cases h
                case isFalse =>
                  cases h
                  exact ⟨rfl, rfl, rfl, by simpa using hlit⟩

theorem classifyToken_position (cs : List Char) (names : List String) (skips : List Int)
    (tok : Nat × Nat) (ref : ColumnReference)
    (h : classifyToken cs names skips tok = some ref) : ref.position = tok.1 :=
  (classifyToken_shape cs names skips tok ref h).1

theorem refs_sorted (q : String) (tables : List TableAlias) :
    (extractColumnReferences q tables).Pairwise (fun a b => a.position < b.position) := by
  unfold extractColumnReferences
  exact pairwise_filterMap_key _ (fun t => t.1) (fun r => r.position)
    (fun a b h => classifyToken_position _ _ _ a b h) _ (identTokens_sorted q.data)

theorem refDiag_position (s : DatabaseSchema) (tables : List TableAlias)
    (am : List (String × String)) (cols : List String)
    (ref : ColumnReference) (e : ValidationError)
    (h : refDiag s tables am cols ref = some e) : e.position = ref.position := by
  simp only [refDiag] at h
  split at h
  case h_1 rt heq =>
    split at h
    case h_1 => cases h
    case h_2 atn hm =>
      split at h
      case isTrue =>
        split at h
        case isTrue => cases h
        case isFalse => cases h; rfl
      case isFalse => cases h
  case h_2 heq =>
    split at h
    case isTrue => cases h
    case isFalse =>
      split at h
      case isTrue => cases h
      case isFalse => cases h; rfl

/-- The diagnostics of `validateColumns` whose position is that of a given
extracted reference are exactly the diagnostic `refDiag` produces for it
(positions of distinct references are distinct, since the identifier scan
is strictly left-to-right). -/
theorem filter_filterMap_byPos (f : ColumnReference → Option ValidationError)
    (hf : ∀ r e, f r = some e → e.position = r.position) :
    ∀ l : List ColumnReference, l.Pairwise (fun a b => a.position < b.position) →
      ∀ r ∈ l, (l.filterMap f).filter (fun e => e.position == r.position) = (f r).toList := by
  intro l
  induction l with
  | nil => intro _ r hr; cases hr
  | cons a l ih =>
    intro hp r hr
    obtain ⟨ha, hl'⟩ := List.pairwise_cons.mp hp
    have tailNil : ∀ (pos : Nat), (∀ x ∈ l, pos < x.position) →
        (l.filterMap f).filter (fun e => e.position == pos) = [] := by
      intro pos hpos
      apply filter_eq_nil_of
      intro e he
      obtain ⟨x, hx, hfx⟩ := List.mem_filterMap.mp he
      have hne : e.position ≠ pos := by
        rw [hf x e hfx]
        exact Nat.ne_of_gt (hpos x hx)
      simp [hne]
    rcases List.mem_cons.mp hr with hr | hr
    · subst hr
      cases hfa : f r with
      | none =>
        simp only [List.filterMap_cons, hfa, Option.toList]
        exact tailNil r.position ha
      | some e =>
        have hpe : (e.position == r.position) = true := by
          simp [hf r e hfa]
        simp only [List.filterMap_cons, hfa, Option.toList, List.filter_cons, hpe, if_true]
        rw [tailNil r.position ha]
    · cases hfa : f a with
      | none =>
        simp only [List.filterMap_cons, hfa]
        exact ih hl' r hr
      | some e =>
        have hne : (e.position == r.position) = false := by
          have h1 : e.position = a.position := hf a e hfa
          have h2 : a.position ≠ r.position := Nat.ne_of_lt (ha r hr)
          simp [h1, h2]
        simp only [List.filterMap_cons, hfa, List.filter_cons, hne, Bool.false_eq_true, if_false]
        exact ih hl' r hr

/-- `validateColumns` on a non-blank query with a non-empty table list is
the per-reference validation mapped over the extracted references. -/
theorem validateColumns_eq_filterMap (q : String) (s : DatabaseSchema)
    (hb : isBlank q.data = false) (ht : extractTablesWithAliases q ≠ []) :
    validateColumns q s = (extractColumnReferences q (extractTablesWithAliases q)).filterMap
      (refDiag s (extractTablesWithAliases q) (buildAliasMap (extractTablesWithAliases q))
        (getAllColumnsInScope (extractTablesWithAliases q) s)) := by
  have hne : (extractTablesWithAliases q).isEmpty = false := by
    cases h : extractTablesWithAliases q with
    | nil => exact absurd h ht
    | cons a l => rfl
  simp [validateColumns, hb, hne]

/-! ### Schema-congruence helpers (validation reads only `schema.tables`) -/

theorem getTableColumns_congr (n : String) (s1 s2 : DatabaseSchema)
    (h : s1.tables = s2.tables) : getTableColumns n s1 = getTableColumns n s2 := by
  unfold getTableColumns
  rw [h]

theorem tableExistsInSchema_congr (n : String) (s1 s2 : DatabaseSchema)
    (h : s1.tables = s2.tables) : tableExistsInSchema n s1 = tableExistsInSchema n s2 := by
  unfold tableExistsInSchema
  rw [h]

theorem getAllColumnsInScope_congr (tables : List TableAlias) (s1 s2 : DatabaseSchema)
    (h : s1.tables = s2.tables) :
    getAllColumnsInScope tables s1 = getAllColumnsInScope tables s2 := by
  induction tables with
  | nil => rfl
  | cons ta rest ih =>
    simp only [getAllColumnsInScope]
    rw [getTableColumns_congr _ _ _ h, ih]

theorem refDiag_congr (s1 s2 : DatabaseSchema) (tables : List TableAlias)
    (am : List (String × String)) (cols : List String)
    (h : s1.tables = s2.tables) (ref : ColumnReference) :
    refDiag s1 tables am cols ref = refDiag s2 tables am cols ref := by
  have hfilter : (fun t => tableExistsInSchema t.tableName s1)
      = (fun t : TableAlias => tableExistsInSchema t.tableName s2) :=
    funext fun t => tableExistsInSchema_congr _ _ _ h
  cases href : ref.table with
  | some rt =>
    simp only [refDiag, href]
    cases hm : mapGet am rt with
    | none => rfl
    | some atn =>
      simp only [hm]
      rw [tableExistsInSchema_congr _ _ _ h, getTableColumns_congr _ _ _ h]
  | none =>
    simp only [refDiag, href]
    rw [hfilter]

/-! ### Claim theorems: C2, C8, C9, C10 -/

/-- C2: for every schema and every query string that contains no `FROM`
clause and no `JOIN` clause (first conjunct: no case-insensitive occurrence
of `from`/`join` at all; second conjunct: the table/alias extractor finds
no clause), `validateColumns` returns the empty list of diagnostics. -/
theorem claim_C2_no_from_join_empty :
    (∀ (q : String) (s : DatabaseSchema), containsCI q.data fromPat = false →
        containsCI q.data joinPat = false → validateColumns q s = []) ∧
    (∀ (q : String) (s : DatabaseSchema), extractTablesWithAliases q = [] →
        validateColumns q s = []) := by
  constructor
  · intro q s h1 h2
    exact validateColumns_of_no_tables q s (noFromJoin_extractTables q h1 h2)
  · intro q s h
    exact validateColumns_of_no_tables q s h

/-- Witness for C2 at the query `SELECT 1`. -/
theorem claim_C2_no_from_join_empty_witness :
    containsCI "SELECT 1".data fromPat = false ∧
    containsCI "SELECT 1".data joinPat = false ∧
    validateColumns "SELECT 1" ordersSchema = [] :=
  ⟨by decide, by decide,
   claim_C2_no_from_join_empty.1 "SELECT 1" ordersSchema (by decide) (by decide)⟩

/-- C8: for every schema, if the query trimmed of whitespace is empty
(`query.trim() === ''`, i.e. every character is whitespace), then
`validateColumns` returns the empty list. -/
theorem claim_C8_blank_query_empty (q : String) (s : DatabaseSchema)
    (h : isBlank q.data = true) : validateColumns q s = [] := by
  simp [validateColumns, h]

/-- Witness for C8 at a whitespace-only query. -/
theorem claim_C8_blank_query_empty_witness :
    isBlank "  \t ".data = true ∧ validateColumns "  \t " ordersSchema = [] :=
  ⟨by decide, claim_C8_blank_query_empty "  \t " ordersSchema (by decide)⟩

/-- C9: `validateColumns` is a pure function of its two arguments in this
embedding, so two calls with the same query and schema return identical
diagnostic lists (no hidden mutable state). -/
theorem claim_C9_deterministic (q : String) (s : DatabaseSchema) :
    validateColumns q s = validateColumns q s := rfl

/-- C10: validation never reads the schema snapshot's `keywords` and
`functions` fields — two schemas with equal `tables` give identical
results whatever those fields hold (extraction classifies keywords and
functions only against the module-level static vocabulary sets). -/
theorem claim_C10_schema_keywords_unused (q : String) (s1 s2 : DatabaseSchema)
    (h : s1.tables = s2.tables) : validateColumns q s1 = validateColumns q s2 := by
  cases hb : isBlank q.data with
  | true => simp [validateColumns, hb]
  | false =>
    simp only [validateColumns, hb, Bool.false_eq_true, if_false]
    rw [getAllColumnsInScope_congr _ _ _ h,
        funext (refDiag_congr s1 s2 (extractTablesWithAliases q)
          (buildAliasMap (extractTablesWithAliases q))
          (getAllColumnsInScope (extractTablesWithAliases q) s2) h)]

/-- Witness for C10: the same query validated against two schemas that
differ only in their `keywords`/`functions` fields. -/
theorem claim_C10_schema_keywords_unused_witness :
    validateColumns "SELECT id, bogus FROM orders" ordersSchema =
      validateColumns "SELECT id, bogus FROM orders" ordersSchemaVocab :=
  claim_C10_schema_keywords_unused "SELECT id, bogus FROM orders" ordersSchema ordersSchemaVocab rfl

theorem take_length_take {α : Type} (l : Nat) (xs : List α) :
    xs.take ((xs.take l).length) = xs.take l := by
  rw [List.length_take]
  rcases Nat.le_total l xs.length with h | h
  · rw [Nat.min_eq_left h]
  · rw [Nat.min_eq_right h, List.take_length, List.take_of_length_le h]

/-- C5: every `ColumnReference` the extractor emits round-trips: the
`[position, endPosition)` slice of the original query is the reference's
`name` up to letter case (the stored name is its lowercase form), and
`endPosition = position +` the matched token's length. -/
theorem claim_C5_roundtrip (q : String) (tables : List TableAlias) (ref : ColumnReference)
    (h : ref ∈ extractColumnReferences q tables) :
    lowerS (sliceStr q ref.position ref.endPosition) = ref.name ∧
    ref.endPosition = ref.position + (sliceStr q ref.position ref.endPosition).length := by
  simp only [extractColumnReferences] at h
  obtain ⟨tok, htok, hcls⟩ := List.mem_filterMap.mp h
  obtain ⟨hpos, hname, hend, hlit⟩ := classifyToken_shape _ _ _ tok ref hcls
  have hslice : sliceStr q ref.position ref.endPosition = String.mk (sliceL q.data tok.1 tok.2) := by
    rw [hpos, hend]
    unfold sliceStr
    simp only [Nat.add_sub_cancel_left]
    unfold sliceL
    rw [take_length_take]
  constructor
  · rw [hslice, hname]
  · rw [hslice, hpos, hend]
    rfl

/-- Witness for C5: the reference extracted from `SELECT Total FROM t`. -/
theorem claim_C5_roundtrip_witness :
    ((⟨"total", none, 7, 12⟩ : ColumnReference) ∈
        extractColumnReferences "SELECT Total FROM t" [⟨"t", none⟩]) ∧
    lowerS (sliceStr "SELECT Total FROM t" 7 12) = "total" ∧
    (12 : Nat) = 7 + (sliceStr "SELECT Total FROM t" 7 12).length :=
  ⟨by decide,
   (claim_C5_roundtrip "SELECT Total FROM t" [⟨"t", none⟩] ⟨"total", none, 7, 12⟩ (by decide)).1,
   (claim_C5_roundtrip "SELECT Total FROM t" [⟨"t", none⟩] ⟨"total", none, 7, 12⟩ (by decide)).2⟩

/-- C4: an identifier whose start offset lies inside a single-quoted
string literal (per `isInStringLiteral`, where a doubled quote escapes and
does not toggle) is never emitted as a `ColumnReference`, and therefore no
diagnostic is ever positioned inside a string literal. -/
theorem claim_C4_string_literal_masking (q : String) :
    (∀ (tables : List TableAlias) (ref : ColumnReference),
        ref ∈ extractColumnReferences q tables →
        isInStringLiteral q.data ref.position = false) ∧
    (∀ (s : DatabaseSchema) (e : ValidationError),
        e ∈ validateColumns q s → isInStringLiteral q.data e.position = false) := by
  have h1 : ∀ (tables : List TableAlias) (ref : ColumnReference),
      ref ∈ extractColumnReferences q tables →
      isInStringLiteral q.data ref.position = false := by
    intro tables ref h
    simp only [extractColumnReferences] at h
    obtain ⟨tok, htok, hcls⟩ := List.mem_filterMap.mp h
    obtain ⟨hpos, _, _, hlit⟩ := classifyToken_shape _ _ _ tok ref hcls
    rw [hpos]
    exact hlit
  refine ⟨h1, ?_⟩
  intro s e he
  cases hb : isBlank q.data with
  | true => simp [validateColumns, hb] at he
  | false =>
    by_cases htab : extractTablesWithAliases q = []
    · rw [validateColumns_of_no_tables q s htab] at he
      cases he
    · rw [validateColumns_eq_filterMap q s hb htab] at he
      obtain ⟨ref, href, hrd⟩ := List.mem_filterMap.mp he
      rw [refDiag_position _ _ _ _ ref e hrd]
      exact h1 _ ref href

/-- Witness for C4: a reference emitted outside any string literal. -/
theorem claim_C4_string_literal_masking_witness :
    ((⟨"bogus", none, 7, 12⟩ : ColumnReference) ∈
        extractColumnReferences "SELECT bogus FROM orders" [⟨"orders", none⟩]) ∧
    isInStringLiteral "SELECT bogus FROM orders".data 7 = false :=
  ⟨by decide,
   (claim_C4_string_literal_masking "SELECT bogus FROM orders").1
     [⟨"orders", none⟩] ⟨"bogus", none, 7, 12⟩ (by decide)⟩

/-- C1: when at least one referenced table is known to the schema, an
unqualified reference whose name is in no in-scope table's columns yields
exactly one `error` diagnostic with message `Unknown column "<name>"` and a
hint listing the known tables (alias if present, else table name,
comma-joined; `table` for one known table, `tables` for more), while an
unqualified reference whose name is in scope yields no diagnostic. -/
theorem claim_C1_unqualified_unknown_column (q : String) (s : DatabaseSchema)
    (ref : ColumnReference)
    (href : ref ∈ extractColumnReferences q (extractTablesWithAliases q))
    (hunq : ref.table = none)
    (hknown : (extractTablesWithAliases q).filter
        (fun t => tableExistsInSchema t.tableName s) ≠ []) :
    ((getAllColumnsInScope (extractTablesWithAliases q) s).contains ref.name = false →
      (validateColumns q s).filter (fun e => e.position == ref.position) =
        [{ message := "Unknown column \"" ++ ref.name ++ "\"",
           position := ref.position, endPosition := ref.endPosition,
           severity := "error",
           hint := some ("\"" ++ ref.name ++ "\" not found in "
             ++ (if ((extractTablesWithAliases q).filter
                     (fun t => tableExistsInSchema t.tableName s)).length = 1
                 then "table" else "tables")
             ++ ": " ++ joinComma (((extractTablesWithAliases q).filter
                     (fun t => tableExistsInSchema t.tableName s)).map displayName)) }]) ∧
    ((getAllColumnsInScope (extractTablesWithAliases q) s).contains ref.name = true →
      (validateColumns q s).filter (fun e => e.position == ref.position) = []) := by
  have htne : extractTablesWithAliases q ≠ [] := by
    intro h0
    apply hknown
    rw [h0]
    rfl
  have hb : isBlank q.data = false := by
    cases hbb : isBlank q.data with
    | false => rfl
    | true => exact absurd (blank_extractTables q hbb) htne
  have hkne : ((extractTablesWithAliases q).filter
      (fun t => tableExistsInSchema t.tableName s)).isEmpty = false := by
    cases hfk : (extractTablesWithAliases q).filter
        (fun t => tableExistsInSchema t.tableName s) with
    | nil => exact absurd hfk hknown
    | cons a l => rfl
  have hfilter := filter_filterMap_byPos
    (refDiag s (extractTablesWithAliases q) (buildAliasMap (extractTablesWithAliases q))
      (getAllColumnsInScope (extractTablesWithAliases q) s))
    (fun r e h => refDiag_position _ _ _ _ r e h)
    (extractColumnReferences q (extractTablesWithAliases q))
    (refs_sorted q (extractTablesWithAliases q)) ref href
  rw [validateColumns_eq_filterMap q s hb htne]
  constructor
  · intro hc
    rw [hfilter]
    simp only [refDiag, hunq, hc, Bool.false_eq_true, if_false, hkne]
    rfl
  · intro hc
    rw [hfilter]
    simp only [refDiag, hunq, hc, if_true]
    rfl

/-- Witness for C1: `SELECT bogus FROM orders` against `orders(id, total)`
produces exactly the expected diagnostic for `bogus`; `total` would be in
scope. -/
theorem claim_C1_unqualified_unknown_column_witness :
    (validateColumns "SELECT bogus FROM orders" ordersSchema).filter
        (fun e => e.position == 7) =
      [{ message := "Unknown column \"bogus\"", position := 7, endPosition := 12,
         severity := "error", hint := some "\"bogus\" not found in table: orders" }] :=
  (claim_C1_unqualified_unknown_column "SELECT bogus FROM orders" ordersSchema
    ⟨"bogus", none, 7, 12⟩ (by decide) rfl (by decide)).1 (by decide)

/-- C3: a qualified reference whose qualifier does not resolve through the
alias map, or resolves to a table absent from the schema, is skipped
silently: no diagnostic is emitted at its position. -/
theorem claim_C3_qualified_unresolvable_skipped (q : String) (s : DatabaseSchema)
    (ref : ColumnReference) (t : String)
    (href : ref ∈ extractColumnReferences q (extractTablesWithAliases q))
    (ht : ref.table = some t)
    (hfail : mapGet (buildAliasMap (extractTablesWithAliases q)) t = none ∨
      ∃ tn, mapGet (buildAliasMap (extractTablesWithAliases q)) t = some tn ∧
        tableExistsInSchema tn s = false) :
    (validateColumns q s).filter (fun e => e.position == ref.position) = [] := by
  cases hb : isBlank q.data with
  | true => simp [validateColumns, hb]
  | false =>
    by_cases htab : extractTablesWithAliases q = []
    · rw [validateColumns_of_no_tables q s htab]
      rfl
    · rw [validateColumns_eq_filterMap q s hb htab,
          filter_filterMap_byPos _ (fun r e h => refDiag_position _ _ _ _ r e h) _
            (refs_sorted q (extractTablesWithAliases q)) ref href]
      have hnone : refDiag s (extractTablesWithAliases q)
          (buildAliasMap (extractTablesWithAliases q))
          (getAllColumnsInScope (extractTablesWithAliases q) s) ref = none := by
        simp only [refDiag, ht]
        rcases hfail with h | ⟨tn, h1, h2⟩
        · simp [h]
        · rw [h1]
          simp [h2]
      rw [hnone]
      rfl

/-- Witness for C3: in `SELECT x.id FROM orders o` the qualifier `x`
resolves to no known alias or table, so no diagnostic is produced. -/
theorem claim_C3_qualified_unresolvable_skipped_witness :
    (validateColumns "SELECT x.id FROM orders o" ordersSchema).filter
      (fun e => e.position == 9) = [] :=
  claim_C3_qualified_unresolvable_skipped "SELECT x.id FROM orders o" ordersSchema
    ⟨"id", some "x", 9, 11⟩ "x" (by decide) rfl (Or.inl (by decide))

/-! ### C6: aliases are never keywords -/

theorem mkTA_not_keyword (tn : String) (ao : Option String) :
    ∀ a, (mkTA tn ao).aliasName = some a → isKeyword a = false := by
  intro a h
  cases ao with
  | none =>
    simp only [mkTA] at h
    cases h
  | some x =>
    simp only [mkTA] at h
    split at h
    · cases h
    · cases h
      rename_i hk
      simpa using hk

theorem fromJoinTail_mkTA (cs : List Char) (j : Nat) (ta : TableAlias) (e : Nat)
    (h : fromJoinTail cs j = some (ta, e)) : ∃ tn ao, ta = mkTA tn ao := by
  simp only [fromJoinTail] at h
  split at h
  · cases h
  · split at h
    · cases h
    · split at h
      case h_1 => cases h; exact ⟨_, _, rfl⟩
      case h_2 => cases h; exact ⟨_, _, rfl⟩

theorem joinTailFrom_mkTA (cs : List Char) (p : Nat) (ta : TableAlias) (e : Nat)
    (h : joinTailFrom cs p = some (ta, e)) : ∃ tn ao, ta = mkTA tn ao := by
  simp only [joinTailFrom] at h
  split at h
  · exact fromJoinTail_mkTA _ _ _ _ h
  · cases h

theorem extractTables_alias_not_keyword (q : String) :
    ∀ ta ∈ extractTablesWithAliases q, ∀ a, ta.aliasName = some a → isKeyword a = false := by
  intro ta hta
  simp only [extractTablesWithAliases] at hta
  rcases List.mem_append.mp hta with h | h
  · refine scanLoop_forall (matchFromTA q.data)
      (fun x => ∀ a, x.aliasName = some a → isKeyword a = false) ?_ _ 0 ta h
    intro k x j hstep
    simp only [matchFromTA] at hstep
    split at hstep
    · cases hstep
    · split at hstep
      · obtain ⟨tn, ao, hx⟩ := fromJoinTail_mkTA _ _ _ _ hstep
        subst hx
        exact mkTA_not_keyword tn ao
      · cases hstep
  · refine scanLoop_forall (matchJoinTA q.data)
      (fun x => ∀ a, x.aliasName = some a → isKeyword a = false) ?_ _ 0 ta h
    intro k x j hstep
    simp only [matchJoinTA] at hstep
    split at hstep
    case isFalse => cases hstep
    case isTrue =>
      split at hstep
      case h_1 plen hpl =>
        split at hstep
        case h_1 r heq =>
          cases hstep
          obtain ⟨tn, ao, hx⟩ := joinTailFrom_mkTA _ _ x j heq
          subst hx
          exact mkTA_not_keyword tn ao
        case h_2 heq =>
          obtain ⟨tn, ao, hx⟩ := joinTailFrom_mkTA _ _ x j hstep
          subst hx
          exact mkTA_not_keyword tn ao
      case h_2 hpl =>
        obtain ⟨tn, ao, hx⟩ := joinTailFrom_mkTA _ _ x j hstep
        subst hx
        exact mkTA_not_keyword tn ao

/-- C6: every (table, alias) pair the table/alias extractor produces has an
absent alias or one that is not a recognized SQL keyword (case-insensitive);
in particular `FROM users WHERE id = 1` yields `(users, no alias)` rather
than treating `WHERE` as an alias. -/
theorem claim_C6_alias_never_keyword :
    (∀ (q : String), ∀ ta ∈ extractTablesWithAliases q,
        ∀ a, ta.aliasName = some a → isKeyword a = false) ∧
    extractTablesWithAliases "FROM users WHERE id = 1" =
      [{ tableName := "users", aliasName := none }] :=
  ⟨extractTables_alias_not_keyword, by decide⟩

/-- Witness for C6: the alias `u` accepted in `FROM users u WHERE x = 1`
is not a keyword. -/
theorem claim_C6_alias_never_keyword_witness :
    (⟨"users", some "u"⟩ : TableAlias) ∈ extractTablesWithAliases "FROM users u WHERE x = 1" ∧
    isKeyword "u" = false :=
  ⟨by decide,
   claim_C6_alias_never_keyword.1 "FROM users u WHERE x = 1" ⟨"users", some "u"⟩ (by decide) "u" rfl⟩

/-! ### C7: alias-map contents and last-write-wins resolution -/

theorem aliasMapStep_eq (m : List (String × String)) (ta : TableAlias) :
    aliasMapStep m ta = (entryOf ta).reverse ++ m := by
  simp only [aliasMapStep, entryOf]
  cases ta.aliasName <;> simp

theorem buildAliasMap_aux (tables : List TableAlias) :
    ∀ m, tables.foldl aliasMapStep m = (aliasBindings tables).reverse ++ m := by
  induction tables with
  | nil => intro m; simp [aliasBindings]
  | cons ta rest ih =>
    intro m
    rw [List.foldl_cons, ih, aliasMapStep_eq]
    simp [aliasBindings, List.reverse_append]

theorem buildAliasMap_eq (tables : List TableAlias) :
    buildAliasMap tables = (aliasBindings tables).reverse := by
  unfold buildAliasMap
  rw [buildAliasMap_aux]
  simp

theorem mapGet_append (l1 l2 : List (String × String)) (k : String) :
    mapGet (l1 ++ l2) k =
      (match mapGet l1 k with
       | some v => some v
       | none => mapGet l2 k) := by
  induction l1 with
  | nil => rfl
  | cons p rest ih =>
    obtain ⟨k', v⟩ := p
    by_cases h : (k' == k) = true
    · simp [mapGet, h]
    · simp only [Bool.not_eq_true] at h
      simp [mapGet, h, ih]

theorem mapGet_reverse_eq_lastLookup (l : List (String × String)) (k : String) :
    mapGet l.reverse k = lastLookup l k := by
  induction l with
  | nil => rfl
  | cons p rest ih =>
    obtain ⟨k', v⟩ := p
    rw [List.reverse_cons, mapGet_append, ih]
    cases h : lastLookup rest k <;> simp [lastLookup, h, mapGet]

theorem mem_aliasBindings (tables : List TableAlias) :
    ∀ ta ∈ tables, (ta.tableName, ta.tableName) ∈ aliasBindings tables ∧
      ∀ a, ta.aliasName = some a → (a, ta.tableName) ∈ aliasBindings tables := by
  induction tables with
  | nil => intro ta hta; cases hta
  | cons hd rest ih =>
    intro ta hta
    rcases List.mem_cons.mp hta with hta | hta
    · subst hta
      constructor
      · exact List.mem_append_left _ (List.mem_cons_self _ _)
      · intro a ha
        apply List.mem_append_left
        simp [entryOf, ha]
    · obtain ⟨h1, h2⟩ := ih ta hta
      exact ⟨List.mem_append_right _ h1, fun a ha => List.mem_append_right _ (h2 a ha)⟩

/-- C7: the alias map contains every table name bound to itself and every
alias bound to its table, resolution returns the LAST binding inserted for
a key (later insertions override earlier ones), and in particular an alias
equal to an earlier table's name makes that name resolve to the aliased
table rather than to itself. -/
theorem claim_C7_alias_map :
    (∀ (tables : List TableAlias),
      (∀ ta ∈ tables, (ta.tableName, ta.tableName) ∈ aliasBindings tables ∧
        ∀ a, ta.aliasName = some a → (a, ta.tableName) ∈ aliasBindings tables) ∧
      (∀ k, mapGet (buildAliasMap tables) k = lastLookup (aliasBindings tables) k)) ∧
    mapGet (buildAliasMap [⟨"t1", none⟩, ⟨"t2", some "t1"⟩]) "t1" = some "t2" := by
  refine ⟨fun tables => ⟨mem_aliasBindings tables, fun k => ?_⟩, by decide⟩
  rw [buildAliasMap_eq, mapGet_reverse_eq_lastLookup]

/-- Witness for C7 at the single aliased table `orders o`. -/
theorem claim_C7_alias_map_witness :
    ("orders", "orders") ∈ aliasBindings [⟨"orders", some "o"⟩] ∧
    ("o", "orders") ∈ aliasBindings [⟨"orders", some "o"⟩] ∧
    mapGet (buildAliasMap [⟨"orders", some "o"⟩]) "o" =
      lastLookup (aliasBindings [⟨"orders", some "o"⟩]) "o" :=
  ⟨((claim_C7_alias_map.1 [⟨"orders", some "o"⟩]).1 ⟨"orders", some "o"⟩ (by decide)).1,
   ((claim_C7_alias_map.1 [⟨"orders", some "o"⟩]).1 ⟨"orders", some "o"⟩ (by decide)).2 "o" rfl,
   (claim_C7_alias_map.1 [⟨"orders", some "o"⟩]).2 "o"⟩
